import Mathlib

/-!
Shallow embedding of `withings_sync/sync.py` (the `sync` orchestrator).

Measurements carried as rationals (modelling Python floats), timestamps as
integers.  Calls made to the `FitEncoder_Weight` collaborator are recorded as
an event trace, since the encoder itself is an external collaborator of the
orchestrator; side effects relevant to the claims (stdout write of the
buffer, the Garmin upload, `withings.setLastSync`) are recorded as flags in
the result structure.
-/

namespace WithingsSync

/-- A Withings measurement group as consumed by the sync loop: a timestamp
(`group.get_datetime()`) plus the optional physical sub-measurements. -/
structure MeasureGroup where
  dt : ℤ
  weight : Option ℚ
  fat_ratio : Option ℚ
  muscle_mass : Option ℚ
  hydration : Option ℚ
  bone_mass : Option ℚ
  deriving DecidableEq, Repr

/-- Python `round(x, 1)`: round to one decimal place. -/
def round1 (x : ℚ) : ℚ := ((round (10 * x) : ℤ) : ℚ) / 10

/-- `if height and weight: bmi = round(weight / pow(height, 2), 1) else bmi = None`
(sync.py lines 133-136).  Python truthiness: `None` and `0.0` are falsy. -/
def bmi_calc : Option ℚ → ℚ → Option ℚ
  | some h, w => if h ≠ 0 ∧ w ≠ 0 then some (round1 (w / h ^ 2)) else none
  | none, _ => none

/-- `if hydration and weight: percent_hydration = hydration * 100.0 / weight
else percent_hydration = None` (sync.py lines 138-141). -/
def hydration_calc : Option ℚ → ℚ → Option ℚ
  | some hy, w => if hy ≠ 0 ∧ w ≠ 0 then some (hy * 100 / w) else none
  | none, _ => none

/-- One call made on the `FitEncoder_Weight` instance, or the `getvalue`
read-out of its buffer. -/
inductive FitEvent where
  | file_info : FitEvent
  | file_creator : FitEvent
  | device_info : ℤ → FitEvent
  | weight_scale : ℤ → ℚ → Option ℚ → Option ℚ → Option ℚ → Option ℚ → Option ℚ → FitEvent
  | finish : FitEvent
  | getvalue : FitEvent
  deriving DecidableEq, Repr

/-- The encoder calls one iteration of the sync loop makes for one group
(sync.py lines 116-150): nothing when the group has no weight (`continue`),
otherwise `write_device_info` followed by `write_weight_scale` with the
orchestrator-computed BMI and hydration percentage. -/
def processGroup (height : Option ℚ) (g : MeasureGroup) : List FitEvent :=
  match g.weight with
  | none => []
  | some w =>
      [FitEvent.device_info g.dt,
       FitEvent.weight_scale g.dt w g.fat_ratio (hydration_calc g.hydration w)
         g.bone_mass g.muscle_mass (bmi_calc height w)]

/-- The encoder calls of the whole `for group in groups` loop, in input order. -/
def loopEvents (height : Option ℚ) : List MeasureGroup → List FitEvent
  | [] => []
  | g :: gs => processGroup height g ++ loopEvents height gs

/-- The `last_dt` / `last_weight` scan of the sync loop (sync.py lines
113-114 and 162-164): starting from the accumulator, each weight-bearing
group replaces it when `last_dt is None or dt > last_dt`. -/
def lastScan : List MeasureGroup → Option (ℤ × ℚ) → Option (ℤ × ℚ)
  | [], acc => acc
  | g :: gs, acc =>
      match g.weight with
      | none => lastScan gs acc
      | some w =>
          match acc with
          | none => lastScan gs (some (g.dt, w))
          | some (ld, lw) =>
              if ld < g.dt then lastScan gs (some (g.dt, w))
              else lastScan gs (some (ld, lw))

/-- The full encoder call sequence of one sync run that reaches encoding
(sync.py lines 109-166): `write_file_info`, `write_file_creator`, the loop
body per group, then `finish`. -/
def encodeFit (height : Option ℚ) (gs : List MeasureGroup) : List FitEvent :=
  FitEvent.file_info :: FitEvent.file_creator :: (loopEvents height gs ++ [FitEvent.finish])

/-- Python truthiness of an optional string argument (`if garmin_username:`):
falsy when absent or empty. -/
def truthy_str : Option String → Bool
  | none => false
  | some s => !s.isEmpty

/-- The inputs `sync` branches on, with the collaborator responses it would
observe (`withings.getHeight()`, `withings.getMeasurements(...)`, the
truthiness of `garmin.upload_file(...)`) supplied as data. -/
structure SyncArgs where
  fromdate : Option ℤ
  no_upload : Bool
  trainerroad_username : Option String
  garmin_username : Option String
  height : Option ℚ
  groups : Option (List MeasureGroup)
  upload_ok : Bool
  deriving Repr

/-- The observable outcome of one `sync` run: its return value, the trace of
encoder calls, the final `last_dt`/`last_weight` pair, whether the buffer was
written to stdout, the weight pushed to TrainerRoad (if any), whether a
Garmin upload was attempted, and whether `withings.setLastSync()` ran. -/
structure SyncResult where
  ret : Option ℤ
  events : List FitEvent
  last : Option (ℤ × ℚ)
  stdout_write : Bool
  tr_weight_set : Option ℚ
  uploaded : Bool
  setLastSync_called : Bool
  deriving Repr

/-- The `sync` function of sync.py (lines 73-209), from the measurement
fetch onwards; argument parsing, logging and the Withings session are
external. -/
def sync (a : SyncArgs) : SyncResult :=
  match a.groups with
  | none =>
      { ret := some (-1), events := [], last := none, stdout_write := false,
        tr_weight_set := none, uploaded := false, setLastSync_called := false }
  | some gs =>
      if gs.length = 0 then
        { ret := some (-1), events := [], last := none, stdout_write := false,
          tr_weight_set := none, uploaded := false, setLastSync_called := false }
      else
        let events := encodeFit a.height gs
        match lastScan gs none with
        | none =>
            { ret := some (-1), events := events, last := none, stdout_write := false,
              tr_weight_set := none, uploaded := false, setLastSync_called := false }
        | some (ld, lw) =>
            if a.no_upload then
              { ret := some 0, events := events ++ [FitEvent.getvalue], last := some (ld, lw),
                stdout_write := true, tr_weight_set := none, uploaded := false,
                setLastSync_called := false }
            else
              let trw := if truthy_str a.trainerroad_username then some (round1 lw) else none
              if truthy_str a.garmin_username then
                { ret := none, events := events ++ [FitEvent.getvalue], last := some (ld, lw),
                  stdout_write := false, tr_weight_set := trw, uploaded := true,
                  setLastSync_called := a.upload_ok && a.fromdate.isNone }
              else
                { ret := none, events := events, last := some (ld, lw),
                  stdout_write := false, tr_weight_set := trw, uploaded := false,
                  setLastSync_called := false }

/-- A measurement group carrying no weight reading. -/
def gNone : MeasureGroup := ⟨5, none, none, none, none, none⟩

/-- A weight-bearing measurement group (70 kg with a hydration reading). -/
def g70 : MeasureGroup := ⟨100, some 70, none, some 35, none, none⟩

/-! ## Helper lemmas -/

theorem lastScan_all_none (gs : List MeasureGroup) (acc : Option (ℤ × ℚ))
    (h : ∀ g ∈ gs, g.weight = none) : lastScan gs acc = acc := by
  induction gs with
  | nil => rfl
  | cons g gs ih =>
      have hg : g.weight = none := h g (by simp)
      rw [lastScan, hg]
      exact ih (fun x hx => h x (by simp [hx]))

theorem getvalue_not_mem_processGroup (height : Option ℚ) (g : MeasureGroup) :
    FitEvent.getvalue ∉ processGroup height g := by
  unfold processGroup
  cases g.weight <;> simp

theorem getvalue_not_mem_loopEvents (height : Option ℚ) (gs : List MeasureGroup) :
    FitEvent.getvalue ∉ loopEvents height gs := by
  induction gs with
  | nil => simp [loopEvents]
  | cons g gs ih =>
      rw [loopEvents]
      simp only [List.mem_append, not_or]
      exact ⟨getvalue_not_mem_processGroup height g, ih⟩

theorem loopEvents_append (height : Option ℚ) (xs ys : List MeasureGroup) :
    loopEvents height (xs ++ ys) = loopEvents height xs ++ loopEvents height ys := by
  induction xs with
  | nil => simp [loopEvents]
  | cons g gs ih => simp [loopEvents, ih]

/-! ## C1 -/

/-- C1: when the measurement stream is absent, empty, or contains no
weight-bearing group, `sync` returns `-1`, the buffer is never read out
(`getvalue` is not called), and neither a stdout write, an upload, nor a
`setLastSync` occurs. -/
theorem sync_empty_input (a : SyncArgs)
    (h : a.groups = none ∨ ∃ gs, a.groups = some gs ∧ ∀ g ∈ gs, g.weight = none) :
    (sync a).ret = some (-1) ∧ FitEvent.getvalue ∉ (sync a).events ∧
      (sync a).stdout_write = false ∧ (sync a).uploaded = false ∧
      (sync a).setLastSync_called = false := by
  rcases h with h | ⟨gs, hgs, hall⟩
  · simp [sync, h]
  · have hscan : lastScan gs none = none := lastScan_all_none gs none hall
    rcases eq_or_ne gs.length 0 with hlen | hlen
    · simp [sync, hgs, hlen]
    · refine ⟨?_, ?_, ?_, ?_, ?_⟩ <;>
        simp [sync, hgs, hlen, hscan, encodeFit, List.mem_append,
          getvalue_not_mem_loopEvents a.height gs]

theorem sync_empty_input_witness :
    ((some [gNone] : Option (List MeasureGroup)) = none ∨
      ∃ gs, (some [gNone] : Option (List MeasureGroup)) = some gs ∧ ∀ g ∈ gs, g.weight = none) ∧
    ((sync ⟨none, false, none, none, none, some [gNone], false⟩).ret = some (-1) ∧
      FitEvent.getvalue ∉ (sync ⟨none, false, none, none, none, some [gNone], false⟩).events ∧
      (sync ⟨none, false, none, none, none, some [gNone], false⟩).stdout_write = false ∧
      (sync ⟨none, false, none, none, none, some [gNone], false⟩).uploaded = false ∧
      (sync ⟨none, false, none, none, none, some [gNone], false⟩).setLastSync_called = false) :=
  ⟨Or.inr ⟨[gNone], rfl, by decide⟩,
    sync_empty_input ⟨none, false, none, none, none, some [gNone], false⟩
      (Or.inr ⟨[gNone], rfl, by decide⟩)⟩

/-! ## C3 -/

/-- C3: a group whose weight is `None` produces no encoder message
(`continue`), and the loop output around it is exactly the output of the
groups before and after it — it never aborts encoding of later groups. -/
theorem no_weight_group_skipped (height : Option ℚ) (g : MeasureGroup)
    (h : g.weight = none) :
    processGroup height g = [] ∧
      ∀ pre post : List MeasureGroup,
        loopEvents height (pre ++ g :: post) =
          loopEvents height pre ++ loopEvents height post := by
  constructor
  · simp [processGroup, h]
  · intro pre post
    rw [loopEvents_append, loopEvents]
    simp [processGroup, h]

theorem no_weight_group_skipped_witness :
    gNone.weight = none ∧ processGroup none gNone = [] ∧
      loopEvents none ([g70] ++ gNone :: [g70]) =
        loopEvents none [g70] ++ loopEvents none [g70] :=
  ⟨rfl, (no_weight_group_skipped none gNone rfl).1,
    (no_weight_group_skipped none gNone rfl).2 [g70] [g70]⟩

/-! ## C7 -/

/-- Recognizer for `write_device_info` calls in the event trace. -/
def is_device_info : FitEvent → Bool
  | FitEvent.device_info _ => true
  | _ => false

/-- C7: `write_device_info` is emitted exactly once per weight-bearing
measurement group — once per record, not once per file. -/
theorem device_info_once_per_record (height : Option ℚ) (gs : List MeasureGroup) :
    (loopEvents height gs).countP is_device_info =
      gs.countP (fun g => g.weight.isSome) ∧
    (encodeFit height gs).countP is_device_info =
      gs.countP (fun g => g.weight.isSome) := by
  have hloop : ∀ gs : List MeasureGroup,
      (loopEvents height gs).countP is_device_info =
        gs.countP (fun g => g.weight.isSome) := by
    intro gs
    induction gs with
    | nil => rfl
    | cons g gs ih =>
        rw [loopEvents, List.countP_append, ih, List.countP_cons]
        cases hw : g.weight <;>
          simp [processGroup, hw, is_device_info, List.countP_cons, Nat.add_comm]
  refine ⟨hloop gs, ?_⟩
  rw [encodeFit, List.countP_cons, List.countP_cons, List.countP_append, hloop gs]
  simp [is_device_info]

/-! ## C9 -/

/-- C9: the hydration division is never a division by zero: a produced
percentage implies the weight was non-zero, a zero weight yields `None`
rather than an error, and groups without a weight are skipped before the
division is ever reached. -/
theorem hydration_no_div_by_zero :
    (∀ (hyd : Option ℚ) (w p : ℚ), hydration_calc hyd w = some p → w ≠ 0) ∧
      (∀ hyd : Option ℚ, hydration_calc hyd 0 = none) ∧
      (∀ (height : Option ℚ) (g : MeasureGroup), g.weight = none →
        processGroup height g = []) := by
  refine ⟨?_, ?_, ?_⟩
  · intro hyd w p h
    cases hyd with
    | none => simp [hydration_calc] at h
    | some hy =>
        by_cases hc : hy ≠ 0 ∧ w ≠ 0
        · exact hc.2
        · simp [hydration_calc, hc] at h
  · intro hyd; cases hyd with
    | none => rfl
    | some hy => simp [hydration_calc]
  · intro height g h; simp [processGroup, h]

theorem hydration_no_div_by_zero_witness :
    (70 : ℚ) ≠ 0 ∧ hydration_calc (some 35) 0 = none ∧ processGroup none gNone = [] :=
  ⟨hydration_no_div_by_zero.1 (some 35) 70 50 (by norm_num [hydration_calc]),
    hydration_no_div_by_zero.2.1 (some 35),
    hydration_no_div_by_zero.2.2 none gNone rfl⟩

/-! ## C2 -/

/-- Modelled from the spec's tie-break policy ("the record whose timestamp is
strictly greatest among all processed groups determines the last known
weight; ties keep the first-seen of the equal-maximum timestamps"): the
first weight-bearing group attaining the maximal timestamp.  At a cons the
head wins exactly when its timestamp is `≥` the best of the rest, since the
head precedes every group of the rest. -/
def firstMaxWB : List MeasureGroup → Option (ℤ × ℚ)
  | [] => none
  | g :: gs =>
      match g.weight, firstMaxWB gs with
      | none, r => r
      | some w, none => some (g.dt, w)
      | some w, some (d, v) => if d ≤ g.dt then some (g.dt, w) else some (d, v)

/-- Folding a non-empty accumulator against the best of the remaining list. -/
def bestFrom (ld : ℤ) (lw : ℚ) : Option (ℤ × ℚ) → Option (ℤ × ℚ)
  | none => some (ld, lw)
  | some (d, v) => if ld < d then some (d, v) else some (ld, lw)

theorem lastScan_some (gs : List MeasureGroup) (ld : ℤ) (lw : ℚ) :
    lastScan gs (some (ld, lw)) = bestFrom ld lw (firstMaxWB gs) := by
  induction gs generalizing ld lw with
  | nil => rfl
  | cons g gs ih =>
      cases hw : g.weight with
      | none =>
          simp only [lastScan, firstMaxWB, hw]
          exact ih ld lw
      | some w =>
          cases hf : firstMaxWB gs with
          | none =>
              simp only [lastScan, firstMaxWB, hw, hf, ih, bestFrom]
          | some p =>
              obtain ⟨d, v⟩ := p
              simp only [lastScan, firstMaxWB, hw, hf, ih]
              by_cases h2 : d ≤ g.dt
              · rw [if_pos h2]
                simp only [bestFrom]
                split_ifs <;> first | rfl | omega
              · rw [if_neg h2]
                simp only [bestFrom]
                split_ifs <;> first | rfl | omega

theorem lastScan_eq_firstMaxWB (gs : List MeasureGroup) :
    lastScan gs none = firstMaxWB gs := by
  induction gs with
  | nil => rfl
  | cons g gs ih =>
      cases hw : g.weight with
      | none =>
          simp only [lastScan, firstMaxWB, hw]
          exact ih
      | some w =>
          simp only [lastScan, firstMaxWB, hw, lastScan_some]
          cases hf : firstMaxWB gs with
          | none => rfl
          | some p =>
              obtain ⟨d, v⟩ := p
              simp only [bestFrom]
              split_ifs <;> first | rfl | omega

theorem firstMaxWB_none_iff (gs : List MeasureGroup) :
    firstMaxWB gs = none ↔ ∀ g ∈ gs, g.weight = none := by
  induction gs with
  | nil => simp [firstMaxWB]
  | cons g gs ih =>
      cases hw : g.weight with
      | none => simp only [firstMaxWB, hw, ih, List.mem_cons]
                constructor
                · intro h y hy
                  rcases hy with rfl | hy'
                  · exact hw
                  · exact h y hy'
                · intro h y hy
                  exact h y (Or.inr hy)
      | some w =>
          have hne : firstMaxWB (g :: gs) ≠ none := by
            simp only [firstMaxWB, hw]
            cases hf : firstMaxWB gs with
            | none => simp
            | some p =>
                obtain ⟨d, v⟩ := p
                show (if d ≤ g.dt then some (g.dt, w) else some (d, v)) ≠
                  (none : Option (ℤ × ℚ))
                split_ifs <;> simp
          constructor
          · intro h; exact absurd h hne
          · intro h
            exact absurd (h g (by simp)) (by simp [hw])

theorem firstMaxWB_first_max (gs : List MeasureGroup) (ld : ℤ) (lw : ℚ)
    (h : firstMaxWB gs = some (ld, lw)) :
    ∃ pre x post, gs = pre ++ x :: post ∧ x.dt = ld ∧ x.weight = some lw ∧
      (∀ g ∈ gs, g.weight ≠ none → g.dt ≤ ld) ∧
      (∀ g ∈ pre, g.weight ≠ none → g.dt < ld) := by
  induction gs generalizing ld lw with
  | nil => simp [firstMaxWB] at h
  | cons g gs ih =>
      cases hw : g.weight with
      | none =>
          rw [show firstMaxWB (g :: gs) = firstMaxWB gs by
                simp only [firstMaxWB, hw]] at h
          obtain ⟨pre, x, post, hsplit, hdt, hwx, hmax, hpre⟩ := ih ld lw h
          refine ⟨g :: pre, x, post, by simp [hsplit], hdt, hwx, ?_, ?_⟩
          · intro y hy hyw
            rcases List.mem_cons.mp hy with rfl | hy'
            · exact absurd hw hyw
            · exact hmax y hy' hyw
          · intro y hy hyw
            rcases List.mem_cons.mp hy with rfl | hy'
            · exact absurd hw hyw
            · exact hpre y hy' hyw
      | some w =>
          cases hf : firstMaxWB gs with
          | none =>
              have hall : ∀ y ∈ gs, y.weight = none := (firstMaxWB_none_iff gs).mp hf
              rw [show firstMaxWB (g :: gs) = some (g.dt, w) by
                    simp only [firstMaxWB, hw, hf]] at h
              simp only [Option.some_inj, Prod.mk.injEq] at h
              obtain ⟨h1, h2⟩ := h
              refine ⟨[], g, gs, rfl, h1, by rw [hw, h2], ?_, by simp⟩
              intro y hy hyw
              rcases List.mem_cons.mp hy with rfl | hy'
              · exact le_of_eq h1
              · exact absurd (hall y hy') hyw
          | some p =>
              obtain ⟨d, v⟩ := p
              rw [show firstMaxWB (g :: gs) =
                    (if d ≤ g.dt then some (g.dt, w) else some (d, v)) by
                    simp only [firstMaxWB, hw, hf]] at h
              by_cases hle : d ≤ g.dt
              · rw [if_pos hle] at h
                simp only [Option.some_inj, Prod.mk.injEq] at h
                obtain ⟨h1, h2⟩ := h
                obtain ⟨pre, x, post, hsplit, hdt, hwx, hmax, hpre⟩ := ih d v hf
                refine ⟨[], g, gs, rfl, h1, by rw [hw, h2], ?_, by simp⟩
                intro y hy hyw
                rcases List.mem_cons.mp hy with rfl | hy'
                · exact le_of_eq h1
                · exact le_trans (le_trans (hmax y hy' hyw) hle) (le_of_eq h1)
              · rw [if_neg hle] at h
                simp only [Option.some_inj, Prod.mk.injEq] at h
                obtain ⟨h1, h2⟩ := h
                rw [h1, h2] at hf
                obtain ⟨pre, x, post, hsplit, hdt, hwx, hmax, hpre⟩ := ih ld lw hf
                have hglt : g.dt < ld := by omega
                refine ⟨g :: pre, x, post, by simp [hsplit], hdt, hwx, ?_, ?_⟩
                · intro y hy hyw
                  rcases List.mem_cons.mp hy with rfl | hy'
                  · exact le_of_lt hglt
                  · exact hmax y hy' hyw
                · intro y hy hyw
                  rcases List.mem_cons.mp hy with rfl | hy'
                  · exact hglt
                  · exact hpre y hy' hyw

theorem sync_last (a : SyncArgs) (gs : List MeasureGroup) (hg : a.groups = some gs) :
    (sync a).last = lastScan gs none := by
  by_cases hlen : gs.length = 0
  · have hnil : gs = [] := List.length_eq_zero.mp hlen
    subst hnil
    simp [sync, hg, lastScan]
  · cases hscan : lastScan gs none with
    | none => simp [sync, hg, hlen, hscan]
    | some p =>
        obtain ⟨ld, lw⟩ := p
        cases hnu : a.no_upload
        · cases hgar : truthy_str a.garmin_username <;>
            simp [sync, hg, hlen, hscan, hnu, hgar]
        · simp [sync, hg, hlen, hscan, hnu]

/-- C2: whenever `sync` reports a final `last_dt`/`last_weight` pair, it is
the weight of a group whose timestamp is the maximum over all weight-bearing
groups, and every weight-bearing group strictly before it in input order has
a strictly smaller timestamp (greatest timestamp wins, first-seen wins
ties). -/
theorem sync_last_weight_selection (a : SyncArgs) (gs : List MeasureGroup)
    (ld : ℤ) (lw : ℚ) (hg : a.groups = some gs) (h : (sync a).last = some (ld, lw)) :
    ∃ pre x post, gs = pre ++ x :: post ∧ x.dt = ld ∧ x.weight = some lw ∧
      (∀ g ∈ gs, g.weight ≠ none → g.dt ≤ ld) ∧
      (∀ g ∈ pre, g.weight ≠ none → g.dt < ld) := by
  have hscan : firstMaxWB gs = some (ld, lw) := by
    rw [← lastScan_eq_firstMaxWB, ← sync_last a gs hg]
    exact h
  exact firstMaxWB_first_max gs ld lw hscan

/-- The spec's last-weight example: [t=100,w=70], [t=200,w=71], [t=150,w=72]
in that input order. -/
def exGroups : List MeasureGroup :=
  [⟨100, some 70, none, none, none, none⟩,
   ⟨200, some 71, none, none, none, none⟩,
   ⟨150, some 72, none, none, none, none⟩]

theorem sync_last_weight_selection_witness :
    (sync ⟨none, true, none, none, none, some exGroups, false⟩).last = some (200, 71) ∧
      ∃ pre x post, exGroups = pre ++ x :: post ∧ x.dt = 200 ∧ x.weight = some 71 ∧
        (∀ g ∈ exGroups, g.weight ≠ none → g.dt ≤ 200) ∧
        (∀ g ∈ pre, g.weight ≠ none → g.dt < 200) :=
  ⟨rfl,
    sync_last_weight_selection ⟨none, true, none, none, none, some exGroups, false⟩
      exGroups 200 71 rfl rfl⟩

/-! ## C4 -/

/-- Modelled from the spec: the encoder's BMI field scaling ("BMI scaled by
10"; "BMI field = round(70.0/1.75², 1)*10 = 229").  The encoder
(`FitEncoder_Weight`) is an external collaborator of sync.py. -/
def bmi_scale (b : ℚ) : ℤ := round (10 * b)

/-- C4 counterexample: a group with a known (non-`None`) weight of `0.0` and
a known height still gets `bmi = None` — Python's `if height and weight:`
tests truthiness, not presence — refuting "present exactly when both weight
and height are known". -/
theorem bmi_calc_claim_counterexample :
    bmi_calc (some (7/4)) 0 = none ∧
      bmi_calc (some (7/4)) 0 ≠ some (round1 ((0 : ℚ) / (7/4) ^ 2)) := by
  constructor
  · simp [bmi_calc]
  · simp [bmi_calc]

/-- C4 amended: the BMI passed to the encoder is `round(weight / height²,
1)`, present exactly when both height and weight are known and non-zero
(Python truthiness), and `None` otherwise; for height 1.75 and weight 70.0
it is 22.9, which the encoder's ×10 scaling turns into 229. -/
theorem bmi_calc_spec :
    (∀ h w : ℚ, h ≠ 0 → w ≠ 0 → bmi_calc (some h) w = some (round1 (w / h ^ 2))) ∧
      (∀ w : ℚ, bmi_calc none w = none) ∧
      (∀ w : ℚ, bmi_calc (some 0) w = none) ∧
      (∀ h : ℚ, bmi_calc (some h) 0 = none) ∧
      bmi_calc (some (7/4)) 70 = some (229/10) ∧
      bmi_scale (229/10) = 229 := by
  refine ⟨?_, ?_, ?_, ?_, ?_, ?_⟩
  · intro h w hh hw
    simp [bmi_calc, hh, hw]
  · intro w; rfl
  · intro w; simp [bmi_calc]
  · intro h; simp [bmi_calc]
  · norm_num [bmi_calc, round1, round_eq]
  · norm_num [bmi_scale, round_eq]

theorem bmi_calc_spec_witness :
    (7/4 : ℚ) ≠ 0 ∧ (70 : ℚ) ≠ 0 ∧
      bmi_calc (some (7/4)) 70 = some (round1 (70 / (7/4 : ℚ) ^ 2)) :=
  ⟨by norm_num, by norm_num, bmi_calc_spec.1 (7/4) 70 (by norm_num) (by norm_num)⟩

/-! ## C5 -/

/-- C5 counterexample: a group with an available hydration mass of `0.0` and
weight 70 gets `percent_hydration = None`, not `0 * 100 / 70` — Python's
`if hydration and weight:` tests truthiness, not availability — refuting
"equals hydration * 100 / weight when both operands are available". -/
theorem hydration_calc_claim_counterexample :
    hydration_calc (some 0) 70 = none ∧
      hydration_calc (some 0) 70 ≠ some ((0 : ℚ) * 100 / 70) := by
  constructor
  · simp [hydration_calc]
  · simp [hydration_calc]

/-- C5 amended: the hydration percentage passed to the encoder equals
`hydration * 100 / weight` when both the hydration mass and the weight are
available and non-zero (Python truthiness), and is `None` when either is
unavailable or zero. -/
theorem hydration_calc_spec :
    (∀ hy w : ℚ, hy ≠ 0 → w ≠ 0 → hydration_calc (some hy) w = some (hy * 100 / w)) ∧
      (∀ w : ℚ, hydration_calc none w = none) ∧
      (∀ w : ℚ, hydration_calc (some 0) w = none) ∧
      (∀ hy : ℚ, hydration_calc (some hy) 0 = none) := by
  refine ⟨?_, ?_, ?_, ?_⟩
  · intro hy w hhy hw
    simp [hydration_calc, hhy, hw]
  · intro w; rfl
  · intro w; simp [hydration_calc]
  · intro hy; simp [hydration_calc]

theorem hydration_calc_spec_witness :
    (35 : ℚ) ≠ 0 ∧ (70 : ℚ) ≠ 0 ∧
      hydration_calc (some 35) 70 = some ((35 : ℚ) * 100 / 70) :=
  ⟨by norm_num, by norm_num, hydration_calc_spec.1 35 70 (by norm_num) (by norm_num)⟩

/-! ## C8 -/

/-- C8: encoding is deterministic — two runs of the encoding step over equal
heights and equal ordered measurement-group sequences produce identical
encoder traces. -/
theorem encode_deterministic (h₁ h₂ : Option ℚ) (gs₁ gs₂ : List MeasureGroup)
    (hh : h₁ = h₂) (hg : gs₁ = gs₂) : encodeFit h₁ gs₁ = encodeFit h₂ gs₂ := by
  rw [hh, hg]

theorem encode_deterministic_witness :
    (some (7/4) : Option ℚ) = some (7/4) ∧ [g70, gNone] = [g70, gNone] ∧
      encodeFit (some (7/4)) [g70, gNone] = encodeFit (some (7/4)) [g70, gNone] :=
  ⟨rfl, rfl, encode_deterministic (some (7/4)) (some (7/4)) [g70, gNone] [g70, gNone] rfl rfl⟩

/-! ## C6 -/

/-- C6: every run reaching encoding makes the encoder calls in strict
sequence: `write_file_info` first, then `write_file_creator`, then per
weight-bearing group in input order a `write_device_info` immediately
followed by that group's `write_weight_scale`, then exactly one `finish`;
`getvalue` is appended (once, last) only when the buffer is read out, which
happens only for the stdout write or the upload. -/
theorem sync_encoder_sequence (a : SyncArgs) (gs : List MeasureGroup)
    (hg : a.groups = some gs) (hne : gs ≠ []) :
    ((sync a).events = encodeFit a.height gs ∨
      (sync a).events = encodeFit a.height gs ++ [FitEvent.getvalue]) ∧
      encodeFit a.height gs =
        FitEvent.file_info :: FitEvent.file_creator ::
          (loopEvents a.height gs ++ [FitEvent.finish]) ∧
      (∀ g : MeasureGroup, g.weight = none → processGroup a.height g = []) ∧
      (∀ (g : MeasureGroup) (w : ℚ), g.weight = some w →
        processGroup a.height g =
          [FitEvent.device_info g.dt,
           FitEvent.weight_scale g.dt w g.fat_ratio (hydration_calc g.hydration w)
             g.bone_mass g.muscle_mass (bmi_calc a.height w)]) ∧
      ((sync a).events = encodeFit a.height gs ++ [FitEvent.getvalue] →
        (sync a).stdout_write = true ∨ (sync a).uploaded = true) := by
  have hlen : ¬ gs.length = 0 := by simpa [List.length_eq_zero] using hne
  have hshape : encodeFit a.height gs =
      FitEvent.file_info :: FitEvent.file_creator ::
        (loopEvents a.height gs ++ [FitEvent.finish]) := rfl
  have hnotapp : encodeFit a.height gs ≠ encodeFit a.height gs ++ [FitEvent.getvalue] := by
    intro hcon
    have hlencon := congrArg List.length hcon
    simp at hlencon
  have hproc1 : ∀ g : MeasureGroup, g.weight = none → processGroup a.height g = [] := by
    intro g h; simp [processGroup, h]
  have hproc2 : ∀ (g : MeasureGroup) (w : ℚ), g.weight = some w →
      processGroup a.height g =
        [FitEvent.device_info g.dt,
         FitEvent.weight_scale g.dt w g.fat_ratio (hydration_calc g.hydration w)
           g.bone_mass g.muscle_mass (bmi_calc a.height w)] := by
    intro g w h; simp [processGroup, h]
  cases hscan : lastScan gs none with
  | none =>
      have hev : (sync a).events = encodeFit a.height gs := by
        simp [sync, hg, hlen, hscan]
      refine ⟨Or.inl hev, hshape, hproc1, hproc2, ?_⟩
      intro hcon
      rw [hev] at hcon
      exact absurd hcon hnotapp
  | some p =>
      obtain ⟨ld, lw⟩ := p
      cases hnu : a.no_upload with
      | true =>
          have hev : (sync a).events = encodeFit a.height gs ++ [FitEvent.getvalue] := by
            simp [sync, hg, hlen, hscan, hnu]
          have hsw : (sync a).stdout_write = true := by
            simp [sync, hg, hlen, hscan, hnu]
          exact ⟨Or.inr hev, hshape, hproc1, hproc2, fun _ => Or.inl hsw⟩
      | false =>
          cases hgar : truthy_str a.garmin_username with
          | true =>
              have hev : (sync a).events = encodeFit a.height gs ++ [FitEvent.getvalue] := by
                simp [sync, hg, hlen, hscan, hnu, hgar]
              have hup : (sync a).uploaded = true := by
                simp [sync, hg, hlen, hscan, hnu, hgar]
              exact ⟨Or.inr hev, hshape, hproc1, hproc2, fun _ => Or.inr hup⟩
          | false =>
              have hev : (sync a).events = encodeFit a.height gs := by
                simp [sync, hg, hlen, hscan, hnu, hgar]
              refine ⟨Or.inl hev, hshape, hproc1, hproc2, ?_⟩
              intro hcon
              rw [hev] at hcon
              exact absurd hcon hnotapp

theorem sync_encoder_sequence_witness :
    (SyncArgs.mk none true none none none (some [g70, gNone]) false).groups =
        some [g70, gNone] ∧
      ([g70, gNone] : List MeasureGroup) ≠ [] ∧
      (((sync (SyncArgs.mk none true none none none (some [g70, gNone]) false)).events =
          encodeFit none [g70, gNone] ∨
        (sync (SyncArgs.mk none true none none none (some [g70, gNone]) false)).events =
          encodeFit none [g70, gNone] ++ [FitEvent.getvalue]) ∧
        encodeFit none [g70, gNone] =
          FitEvent.file_info :: FitEvent.file_creator ::
            (loopEvents none [g70, gNone] ++ [FitEvent.finish]) ∧
        (∀ g : MeasureGroup, g.weight = none → processGroup none g = []) ∧
        (∀ (g : MeasureGroup) (w : ℚ), g.weight = some w →
          processGroup none g =
            [FitEvent.device_info g.dt,
             FitEvent.weight_scale g.dt w g.fat_ratio (hydration_calc g.hydration w)
               g.bone_mass g.muscle_mass (bmi_calc none w)]) ∧
        ((sync (SyncArgs.mk none true none none none (some [g70, gNone]) false)).events =
            encodeFit none [g70, gNone] ++ [FitEvent.getvalue] →
          (sync (SyncArgs.mk none true none none none (some [g70, gNone]) false)).stdout_write =
              true ∨
            (sync (SyncArgs.mk none true none none none (some [g70, gNone]) false)).uploaded =
              true)) :=
  ⟨rfl, by simp,
    sync_encoder_sequence (SyncArgs.mk none true none none none (some [g70, gNone]) false)
      [g70, gNone] rfl (by simp)⟩

/-! ## C10 -/

/-- C10: `withings.setLastSync()` runs only when no explicit `fromdate` was
supplied and the Garmin upload returned a truthy result — which also
requires a truthy Garmin username, no `--no-upload`, and a run that did not
fail early; every other run leaves the bookmark untouched. -/
theorem setLastSync_only_on_success (a : SyncArgs)
    (h : (sync a).setLastSync_called = true) :
    a.fromdate = none ∧ a.upload_ok = true ∧ a.no_upload = false ∧
      truthy_str a.garmin_username = true ∧ (sync a).uploaded = true ∧
      (sync a).ret ≠ some (-1) := by
  cases hg : a.groups with
  | none => simp [sync, hg] at h
  | some gs =>
      by_cases hlen : gs.length = 0
      · simp [sync, hg, hlen] at h
      · cases hscan : lastScan gs none with
        | none => simp [sync, hg, hlen, hscan] at h
        | some p =>
            obtain ⟨ld, lw⟩ := p
            cases hnu : a.no_upload with
            | true => simp [sync, hg, hlen, hscan, hnu] at h
            | false =>
                cases hgar : truthy_str a.garmin_username with
                | false => simp [sync, hg, hlen, hscan, hnu, hgar] at h
                | true =>
                    have h' : a.upload_ok = true ∧ a.fromdate = none := by
                      simpa [sync, hg, hlen, hscan, hnu, hgar, Bool.and_eq_true,
                        Option.isNone_iff_eq_none] using h
                    refine ⟨h'.2, h'.1, rfl, rfl, ?_, ?_⟩
                    · simp [sync, hg, hlen, hscan, hnu, hgar]
                    · simp [sync, hg, hlen, hscan, hnu, hgar]

theorem setLastSync_only_on_success_witness :
    (SyncArgs.mk none false none (some "user") none (some [g70]) true).fromdate = none ∧
      (SyncArgs.mk none false none (some "user") none (some [g70]) true).upload_ok = true ∧
      (SyncArgs.mk none false none (some "user") none (some [g70]) true).no_upload = false ∧
      truthy_str (SyncArgs.mk none false none (some "user") none (some [g70]) true).garmin_username =
        true ∧
      (sync (SyncArgs.mk none false none (some "user") none (some [g70]) true)).uploaded = true ∧
      (sync (SyncArgs.mk none false none (some "user") none (some [g70]) true)).ret ≠ some (-1) :=
  setLastSync_only_on_success (SyncArgs.mk none false none (some "user") none (some [g70]) true)
    rfl

end WithingsSync
